import Mathlib

/-!
# Verification of the ai00_server startup core

A shallow embedding of `crates/ai00-server/src/main.rs`: the path-sandboxing
helpers (`build_path`, `check_path_permitted`), the archive-provisioning
helpers (`load_web`, `load_plugin`, the plugin scan loop of `main`), and
the listener-bootstrap decision procedure of `main`.

Paths are modelled after Rust's `std::path::Path` on Unix: a path is an
optional root plus a list of components, where `components()` normalises
away `.` segments (except a leading one) and keeps `..` segments.
-/

deriving instance DecidableEq for Except

namespace Ai00

/-- A single normalised path component, mirroring `std::path::Component`
(`CurDir`, `ParentDir`, `Normal`); the root is kept separately in `RPath`. -/
inductive Component
  | curDir
  | parentDir
  | normal (s : String)
deriving DecidableEq, Repr

/-- A Unix path as Rust's `Path` sees it: an `absolute` flag (the `RootDir`
component) plus the remaining components in order. -/
structure RPath where
  absolute : Bool
  comps : List Component
deriving DecidableEq, Repr

/-- A component as it appears in Rust's `Path::components()` iterator,
with the root made explicit. -/
inductive FullComp
  | rootDir
  | comp (c : Component)
deriving DecidableEq, Repr

/-- The full component sequence of a path, root included, as iterated by
`Path::components()`. -/
def RPath.fullComps (p : RPath) : List FullComp :=
  (if p.absolute then [FullComp.rootDir] else []) ++ p.comps.map FullComp.comp

/-- Rust `Path::starts_with`: `q`'s whole components are a prefix of `p`'s. -/
def RPath.startsWith (p q : RPath) : Bool :=
  q.fullComps.isPrefixOf p.fullComps

/-- Rust `Path::ends_with`: `q`'s whole components are a suffix of `p`'s. -/
def RPath.endsWith (p q : RPath) : Bool :=
  q.fullComps.isSuffixOf p.fullComps

/-- Rust `Path::is_absolute` (Unix: has a root). -/
def RPath.isAbsolute (p : RPath) : Bool := p.absolute

/-- Rust `Path::join` (via `PathBuf::push`): an absolute `q` replaces `p`
wholesale, otherwise `q`'s components are appended. -/
def RPath.join (p q : RPath) : RPath :=
  if q.absolute then q else ⟨p.absolute, p.comps ++ q.comps⟩

/-- Rust `Path::parent`: drop the last component; `none` once only the root
(or the empty path) remains. -/
def RPath.parent (p : RPath) : Option RPath :=
  match p.comps with
  | [] => none
  | _ => some ⟨p.absolute, p.comps.dropLast⟩

/-- The chain `p, p.parent, p.parent.parent, …` underlying
`Path::ancestors`; each `parent` step drops the last component, so the
recursion runs over the reversed component list. -/
def ancestorsAux (abs : Bool) : List Component → List RPath
  | [] => [⟨abs, []⟩]
  | c :: rest => ⟨abs, (c :: rest).reverse⟩ :: ancestorsAux abs rest

/-- Rust `Path::ancestors`: the path followed by all its parents. -/
def RPath.ancestors (p : RPath) : List RPath :=
  ancestorsAux p.absolute p.comps.reverse

/-- The literal path `..`. -/
def dotDotPath : RPath := ⟨false, [Component.parentDir]⟩

/-- Embedding of `build_path` (main.rs:36-50): reject any name one of whose
ancestors ends with `..`; use the name as-is when absolute or already under
`permitted`, otherwise join; finally require the result to start with
`permitted`. -/
def build_path (permitted name : RPath) : Except String RPath :=
  if name.ancestors.any (fun p => p.endsWith dotDotPath) then
    .error "cannot have \"..\" in names"
  else
    let path := if name.isAbsolute || name.startsWith permitted then name
      else permitted.join name
    if path.startsWith permitted then .ok path
    else .error "path not permitted"

example : build_path ⟨true, [Component.normal "root"]⟩ ⟨false, [Component.normal "a"]⟩
    = .ok ⟨true, [Component.normal "root", Component.normal "a"]⟩ := by decide

example : build_path ⟨true, [Component.normal "root"]⟩
      ⟨false, [Component.normal "a", Component.parentDir, Component.normal "b"]⟩
    = .error "cannot have \"..\" in names" := by decide

example : build_path ⟨true, [Component.normal "root"]⟩ ⟨true, [Component.parentDir]⟩
    = .error "cannot have \"..\" in names" := by decide

example : build_path ⟨true, [Component.normal "root"]⟩ ⟨true, [Component.normal "etc"]⟩
    = .error "path not permitted" := by decide

/-- The empty path (even with a root) does not end with `..`. -/
theorem endsWith_dotDot_nil (abs : Bool) :
    RPath.endsWith ⟨abs, []⟩ dotDotPath = false := by
  cases abs <;> rfl

/-- A nonempty path ends with `..` exactly when its last component (the head
of the reversed component list) is `..`. -/
theorem endsWith_dotDot_reverse_cons (abs : Bool) (c : Component)
    (rest : List Component) :
    (RPath.endsWith ⟨abs, (c :: rest).reverse⟩ dotDotPath = true) ↔
      c = Component.parentDir := by
  have h2 : RPath.fullComps ⟨abs, (c :: rest).reverse⟩
      = (if abs then [FullComp.rootDir] else []) ++
        ((c :: rest).map FullComp.comp).reverse := by
    simp [RPath.fullComps, List.map_reverse]
  rw [RPath.endsWith, h2,
    show dotDotPath.fullComps = [FullComp.comp Component.parentDir] from rfl,
    List.isSuffixOf]
  simp [List.reverse_append, List.isPrefixOf]
  exact eq_comm

/-- Some ancestor ends with `..` exactly when `..` occurs among the
components. -/
theorem ancestorsAux_any_dotDot (abs : Bool) (rcs : List Component) :
    ((ancestorsAux abs rcs).any (fun q => q.endsWith dotDotPath) = true) ↔
      Component.parentDir ∈ rcs := by
  induction rcs with
  | nil => simp [ancestorsAux, endsWith_dotDot_nil]
  | cons c rest ih =>
    simp only [ancestorsAux, List.any_cons, Bool.or_eq_true, ih, List.mem_cons]
    rw [endsWith_dotDot_reverse_cons]
    constructor
    · rintro (h | h)
      · exact Or.inl h.symm
      · exact Or.inr h
    · rintro (h | h)
      · exact Or.inl h.symm
      · exact Or.inr h

/-- The rejection test of `build_path` fires exactly on paths containing a
`..` segment. -/
theorem ancestors_any_dotDot (p : RPath) :
    (p.ancestors.any (fun q => q.endsWith dotDotPath) = true) ↔
      Component.parentDir ∈ p.comps := by
  rw [RPath.ancestors, ancestorsAux_any_dotDot, List.mem_reverse]

/-- Joining a relative path onto a root yields a path starting with the
root. -/
theorem startsWith_join (root name : RPath) (habs : name.absolute = false) :
    (root.join name).startsWith root = true := by
  have hj : root.join name = ⟨root.absolute, root.comps ++ name.comps⟩ := by
    simp [RPath.join, habs]
  rw [hj, RPath.startsWith]
  apply List.isPrefixOf_iff_prefix.mpr
  simp only [RPath.fullComps, List.map_append, ← List.append_assoc]
  exact List.prefix_append _ _

/-- C1: every candidate name containing a `..` path segment — anywhere in
the path, absolute or not — makes `build_path` fail with the traversal
error, for every root; in particular no path is ever returned for it. -/
theorem build_path_rejects_dotdot (root name : RPath)
    (h : Component.parentDir ∈ name.comps) :
    build_path root name = .error "cannot have \"..\" in names" := by
  have hc : name.ancestors.any (fun q => q.endsWith dotDotPath) = true :=
    (ancestors_any_dotDot name).mpr h
  simp [build_path, hc]

theorem build_path_rejects_dotdot_witness :
    build_path ⟨true, [Component.normal "root"]⟩
        ⟨true, [Component.normal "tmp", Component.parentDir, Component.normal "x"]⟩
      = .error "cannot have \"..\" in names" :=
  build_path_rejects_dotdot _ _ (by decide)

/-- C6 fails as stated: a relative, `..`-free candidate that already begins
with the root is used as-is, which differs from the root joined with it. -/
theorem build_path_not_always_join :
    (Component.parentDir ∉ [Component.normal "a", Component.normal "b"]) ∧
      RPath.absolute ⟨false, [Component.normal "a", Component.normal "b"]⟩ = false ∧
      build_path ⟨false, [Component.normal "a"]⟩
          ⟨false, [Component.normal "a", Component.normal "b"]⟩
        ≠ .ok (RPath.join ⟨false, [Component.normal "a"]⟩
          ⟨false, [Component.normal "a", Component.normal "b"]⟩) := by
  decide

/-- C6 (amended): for every `..`-free, non-absolute candidate, `build_path`
succeeds; it returns the root joined with the candidate unless the candidate
already begins with the root (then the candidate as-is), and the returned
path always has the root as a prefix. -/
theorem build_path_relative_ok (root name : RPath)
    (habs : name.absolute = false) (hdd : Component.parentDir ∉ name.comps) :
    build_path root name =
        .ok (if name.startsWith root then name else root.join name) ∧
      (if name.startsWith root then name
        else root.join name).startsWith root = true := by
  have hc : name.ancestors.any (fun q => q.endsWith dotDotPath) = false := by
    rw [Bool.eq_false_iff]
    intro hx
    exact hdd ((ancestors_any_dotDot name).mp hx)
  cases hsw : name.startsWith root with
  | true =>
    refine ⟨?_, ?_⟩
    · simp [build_path, hc, RPath.isAbsolute, habs, hsw]
    · simp [hsw]
  | false =>
    have hj := startsWith_join root name habs
    refine ⟨?_, ?_⟩
    · simp [build_path, hc, RPath.isAbsolute, habs, hsw, hj]
    · simp [hsw, hj]

theorem build_path_relative_ok_witness :
    build_path ⟨true, [Component.normal "root"]⟩ ⟨false, [Component.normal "sub"]⟩
        = .ok (if RPath.startsWith ⟨false, [Component.normal "sub"]⟩
              ⟨true, [Component.normal "root"]⟩
            then ⟨false, [Component.normal "sub"]⟩
            else RPath.join ⟨true, [Component.normal "root"]⟩
              ⟨false, [Component.normal "sub"]⟩) ∧
      RPath.startsWith (if RPath.startsWith ⟨false, [Component.normal "sub"]⟩
            ⟨true, [Component.normal "root"]⟩
          then ⟨false, [Component.normal "sub"]⟩
          else RPath.join ⟨true, [Component.normal "root"]⟩
            ⟨false, [Component.normal "sub"]⟩)
        ⟨true, [Component.normal "root"]⟩ = true :=
  build_path_relative_ok _ _ (by decide) (by decide)

/-! ## Listener bootstrap (main.rs:253-345) -/

/-- The three strategies of the `if acme … else if tls … else …` chain. -/
inductive Strategy
  | acmeManaged
  | tlsQuic
  | plainOnly
deriving DecidableEq, Repr

/-- main.rs:259-262: the effective `(acme, tls)` pair from the configured
domain, acme flag and tls flag. -/
def effectiveFlags (domain : String) (cfgAcme cfgTls : Bool) : Bool × Bool :=
  if domain = "local" then (false, cfgTls) else (cfgAcme, true)

/-- Which branch of main.rs:265/289/323+341 runs for an effective pair. -/
def selectStrategy (acme tls : Bool) : Strategy :=
  if acme then .acmeManaged else if tls then .tlsQuic else .plainOnly

/-- A configured listen address (`std::net::IpAddr`), the 32- or 128-bit
value as a natural number; the unspecified addresses are 0. -/
inductive IpAddr
  | v4 (a : Nat)
  | v6 (a : Nat)
deriving DecidableEq, Repr

/-- main.rs:254-257: a V4 address gives no IPv6 acceptor; a V6 address gives
`Ipv4Addr::UNSPECIFIED` (0) for the V4 side plus the V6 address. -/
def splitAddr : IpAddr → Nat × Option Nat
  | .v4 a => (a, none)
  | .v6 a => (0, some a)

/-- The kind of one constructed acceptor. -/
inductive LKind
  | acmeQuinn
  | rustlsTcp
  | quinnTls
  | plainTcp
deriving DecidableEq, Repr

/-- One acceptor in the final joined listener: its kind, address family,
address value and port. -/
structure Bound where
  kind : LKind
  isV6 : Bool
  addr : Nat
  port : Nat
deriving DecidableEq, Repr

/-- Embedding of the acceptor construction of `main` (main.rs:265-345):
the list of acceptors joined and bound, in join order, per platform
(`windows` is the `cfg(target_os = "windows")` flag). An IPv6 address equal
to 0 models `Ipv6Addr::is_unspecified`. -/
def bootstrap (windows acme tls : Bool) (ipv4 : Nat) (ipv6 : Option Nat)
    (port : Nat) : List Bound :=
  if acme then
    match ipv6 with
    | some a6 =>
      if windows then
        [⟨.acmeQuinn, false, ipv4, port⟩, ⟨.acmeQuinn, true, a6, port⟩]
      else [⟨.acmeQuinn, true, a6, port⟩]
    | none => [⟨.acmeQuinn, false, ipv4, port⟩]
  else if tls then
    match ipv6 with
    | some a6 =>
      if windows then
        [⟨.quinnTls, false, ipv4, port⟩, ⟨.quinnTls, true, a6, port⟩,
          ⟨.rustlsTcp, true, a6, port⟩, ⟨.rustlsTcp, false, ipv4, port⟩]
      else [⟨.quinnTls, true, a6, port⟩, ⟨.rustlsTcp, true, a6, port⟩]
    | none => [⟨.quinnTls, false, ipv4, port⟩, ⟨.rustlsTcp, false, ipv4, port⟩]
  else
    match ipv6 with
    | some a6 =>
      if windows then
        [⟨.plainTcp, false, ipv4, port⟩, ⟨.plainTcp, true, a6, port⟩]
      else if a6 = 0 then [⟨.plainTcp, true, a6, port⟩]
      else [⟨.plainTcp, false, ipv4, port⟩, ⟨.plainTcp, true, a6, port⟩]
    | none => [⟨.plainTcp, false, ipv4, port⟩]

/-- The whole listener phase: split the resolved ip, compute the effective
flags, construct the acceptors. -/
def listenerPhase (windows : Bool) (ip : IpAddr) (port : Nat)
    (domain : String) (cfgAcme cfgTls : Bool) : List Bound :=
  bootstrap windows (effectiveFlags domain cfgAcme cfgTls).1
    (effectiveFlags domain cfgAcme cfgTls).2 (splitAddr ip).1 (splitAddr ip).2
    port

/-- C3: the effective `(acme, tls)` pair and the selected strategy follow
the decision matrix: domain `"local"` forces acme off and keeps the
configured tls flag verbatim; any other domain takes acme verbatim and tls
is true whenever acme is; the strategy is ACME when acme, TLS/QUIC when not
acme but tls, plain TCP otherwise; and domain `"local"` with both flags
configured on selects TLS/QUIC, not ACME. -/
theorem effective_flags_matrix (domain : String) (cfgAcme cfgTls : Bool) :
    (domain = "local" →
        effectiveFlags domain cfgAcme cfgTls = (false, cfgTls)) ∧
      (domain ≠ "local" →
        (effectiveFlags domain cfgAcme cfgTls).1 = cfgAcme ∧
          ((effectiveFlags domain cfgAcme cfgTls).1 = true →
            (effectiveFlags domain cfgAcme cfgTls).2 = true)) ∧
      (∀ a t : Bool,
        (a = true → selectStrategy a t = .acmeManaged) ∧
          (a = false → t = true → selectStrategy a t = .tlsQuic) ∧
          (a = false → t = false → selectStrategy a t = .plainOnly)) ∧
      selectStrategy (effectiveFlags "local" true true).1
        (effectiveFlags "local" true true).2 = .tlsQuic := by
  refine ⟨?_, ?_, ?_, ?_⟩
  · intro h
    simp [effectiveFlags, h]
  · intro h
    simp [effectiveFlags, h]
  · intro a t
    cases a <;> cases t <;> simp [selectStrategy]
  · decide

theorem effective_flags_matrix_witness :
    effectiveFlags "local" true true = (false, true) :=
  (effective_flags_matrix "local" true true).1 rfl

/-- C10: any domain other than `"local"` forces the effective tls flag on
regardless of the configured value, so the plain-TCP strategy is selected
only when the domain is `"local"` and the configured tls flag is off. -/
theorem nonlocal_forces_tls (domain : String) (cfgAcme cfgTls : Bool) :
    (domain ≠ "local" → (effectiveFlags domain cfgAcme cfgTls).2 = true) ∧
      (selectStrategy (effectiveFlags domain cfgAcme cfgTls).1
          (effectiveFlags domain cfgAcme cfgTls).2 = .plainOnly →
        domain = "local" ∧ cfgTls = false) := by
  by_cases h : domain = "local"
  · subst h
    cases cfgAcme <;> cases cfgTls <;> simp [effectiveFlags, selectStrategy]
  · refine ⟨fun _ => by simp [effectiveFlags, h], fun hs => absurd hs ?_⟩
    cases cfgAcme <;> simp [effectiveFlags, h, selectStrategy]

theorem nonlocal_forces_tls_witness :
    (effectiveFlags "example.org" true false).2 = true :=
  (nonlocal_forces_tls "example.org" true false).1 (by decide)

/-- C4 fails as stated: on a non-Windows platform with an IPv6 address
present, the ACME strategy binds only the IPv6 acceptor (no IPv4 join), and
the TLS strategy likewise binds only IPv6-addressed acceptors. -/
theorem bootstrap_not_unconditional_join :
    (bootstrap false true true 0 (some 1) 80).all (fun b => b.isV6) = true ∧
      (bootstrap false false true 0 (some 1) 80).all (fun b => b.isV6) = true ∧
      bootstrap false true true 0 (some 1) 80
        ≠ bootstrap true true true 0 (some 1) 80 := by
  decide

/-- C4 (amended): with an IPv6 address present, the ACME and TLS/QUIC
strategies join IPv4 and IPv6 acceptors only on Windows; elsewhere the ACME
branch binds the IPv6 acceptor alone and the TLS branch binds the QUIC and
TCP acceptors at the IPv6 address only. All joined acceptors share the
configured port, and for these two strategies the shape of the acceptor set
is independent of whether the IPv6 address is unspecified — that special
case belongs to the plain-TCP branch alone. -/
theorem bootstrap_acme_tls_join (w : Bool) (v4 a6 p : Nat) :
    bootstrap true true true v4 (some a6) p
        = [⟨.acmeQuinn, false, v4, p⟩, ⟨.acmeQuinn, true, a6, p⟩] ∧
      bootstrap false true true v4 (some a6) p
        = [⟨.acmeQuinn, true, a6, p⟩] ∧
      bootstrap true false true v4 (some a6) p
        = [⟨.quinnTls, false, v4, p⟩, ⟨.quinnTls, true, a6, p⟩,
            ⟨.rustlsTcp, true, a6, p⟩, ⟨.rustlsTcp, false, v4, p⟩] ∧
      bootstrap false false true v4 (some a6) p
        = [⟨.quinnTls, true, a6, p⟩, ⟨.rustlsTcp, true, a6, p⟩] ∧
      (bootstrap w true true v4 (some 0) p).map (fun b => (b.kind, b.isV6))
        = (bootstrap w true true v4 (some a6) p).map
            (fun b => (b.kind, b.isV6)) ∧
      (bootstrap w false true v4 (some 0) p).map (fun b => (b.kind, b.isV6))
        = (bootstrap w false true v4 (some a6) p).map
            (fun b => (b.kind, b.isV6)) := by
  cases w <;> simp [bootstrap]

/-- C5: in the plain-TCP strategy with an IPv6 address present, a
non-Windows platform binds the IPv6 acceptor alone when the address is the
unspecified `::`, and for every other address the IPv4 and IPv6 plain
acceptors are joined at the same port (on Windows they are always joined). -/
theorem bootstrap_plain_unspecified (w : Bool) (v4 a6 p : Nat) :
    (a6 = 0 → bootstrap false false false v4 (some a6) p
        = [⟨.plainTcp, true, a6, p⟩]) ∧
      (a6 ≠ 0 → bootstrap w false false v4 (some a6) p
        = [⟨.plainTcp, false, v4, p⟩, ⟨.plainTcp, true, a6, p⟩]) ∧
      bootstrap true false false v4 (some a6) p
        = [⟨.plainTcp, false, v4, p⟩, ⟨.plainTcp, true, a6, p⟩] := by
  refine ⟨?_, ?_, ?_⟩
  · intro h
    subst h
    simp [bootstrap]
  · intro h
    cases w <;> simp [bootstrap, h]
  · simp [bootstrap]

theorem bootstrap_plain_unspecified_witness :
    bootstrap false false false 7 (some 0) 8080
      = [⟨LKind.plainTcp, true, 0, 8080⟩] :=
  (bootstrap_plain_unspecified false 7 0 8080).1 rfl

/-! ## Plugin discovery (main.rs:150-184) -/

/-- Split a list of characters at its last `.`, returning the parts before
and after it; `none` when there is no `.` at all. -/
def rsplitDotAux : List Char → Option (List Char × List Char)
  | [] => none
  | c :: rest =>
    match rsplitDotAux rest with
    | some (b, a) => some (c :: b, a)
    | none => if c = '.' then some ([], rest) else none

/-- Rust `Path::file_stem` and `Path::extension` of a plain file name: split
at the last `.`; no dot, or a file name whose only dot leads it, has the
whole name as stem and no extension. -/
def fileStemExt (s : String) : String × Option String :=
  match rsplitDotAux s.toList with
  | none => (s, none)
  | some ([], _) => (s, none)
  | some (b, a) => (String.mk b, some (String.mk a))

example : fileStemExt "foo.zip" = ("foo", some "zip") := by decide
example : fileStemExt "api.zip" = ("api", some "zip") := by decide
example : fileStemExt ".zip" = (".zip", none) := by decide
example : fileStemExt "a.tar.zip" = ("a.tar", some "zip") := by decide

/-- One entry of a directory listing, as `read_dir` reports it. -/
structure DirEntry where
  fileName : String
  isFile : Bool
deriving DecidableEq, Repr

/-- The filter chain of main.rs:158-162: a regular file, extension `zip`,
stem not the reserved name `api`. -/
def isPluginBundle (e : DirEntry) : Bool :=
  e.isFile && ((fileStemExt e.fileName).2 == some "zip")
    && ((fileStemExt e.fileName).1 != "api")

/-- main.rs:156-174: the plugin names (file stems) discovered by reading the
fixed directory `assets/www/plugins`, given the filesystem's directory
listings. -/
def discoverPlugins (fs : String → List DirEntry) : List String :=
  ((fs "assets/www/plugins").filter isPluginBundle).map
    (fun e => (fileStemExt e.fileName).1)

/-- `load_plugin` (main.rs:74-79): the directory plugin `name` is extracted
into, `<target>/plugins/<name>`. -/
def pluginTargetDir (target : RPath) (name : String) : RPath :=
  (target.join ⟨false, [Component.normal "plugins"]⟩).join
    ⟨false, [Component.normal name]⟩

/-- The extraction targets of the plugin loop of `main` (main.rs:163-174):
each discovered stem is handed to `load_plugin` with the served root. -/
def pluginExtractionTargets (fs : String → List DirEntry)
    (servedRoot : RPath) : List (String × RPath) :=
  (discoverPlugins fs).map (fun n => (n, pluginTargetDir servedRoot n))

/-- A filesystem whose `assets/www/plugins` listing holds one plugin bundle
while every other directory — in particular any served root's `plugins`
directory — is empty. -/
def scanCexFs : String → List DirEntry :=
  fun d => if d = "assets/www/plugins" then [⟨"foo.zip", true⟩] else []

/-- C7 fails as stated: discovery reads the fixed directory
`assets/www/plugins`, not the served root's `plugins` directory — here the
served root's `plugins` listing is empty, yet a plugin is discovered. -/
theorem plugin_scan_not_served_root :
    discoverPlugins scanCexFs = ["foo"] ∧
      ((scanCexFs "/tmp/served/plugins").filter isPluginBundle).map
        (fun e => (fileStemExt e.fileName).1) = [] ∧
      (["foo"] : List String) ≠ [] := by
  decide

theorem pluginTargetDir_eq (root : RPath) (n : String) :
    pluginTargetDir root n
      = ⟨root.absolute,
        root.comps ++ [Component.normal "plugins", Component.normal n]⟩ := by
  simp [pluginTargetDir, RPath.join]

theorem mem_discoverPlugins (fs : String → List DirEntry) (n : String) :
    n ∈ discoverPlugins fs ↔
      ∃ e, e ∈ fs "assets/www/plugins" ∧ e.isFile = true ∧
        (fileStemExt e.fileName).2 = some "zip" ∧
        (fileStemExt e.fileName).1 = n ∧ n ≠ "api" := by
  simp only [discoverPlugins, List.mem_map, List.mem_filter, isPluginBundle,
    Bool.and_eq_true, beq_iff_eq, bne_iff_ne, ne_eq]
  constructor
  · rintro ⟨e, ⟨he, ⟨hf, hx⟩, hs⟩, rfl⟩
    exact ⟨e, he, hf, hx, rfl, hs⟩
  · rintro ⟨e, he, hf, hx, rfl, hs⟩
    exact ⟨e, ⟨he, ⟨hf, hx⟩, hs⟩, rfl⟩

/-- C7 (amended): with a web bundle configured, a (name, directory) pair is
provisioned exactly when the fixed `assets/www/plugins` directory — not the
served root's own `plugins` directory — holds a regular file with extension
`zip` whose stem is the name and is not the reserved `api`, and the
directory extracted into is `<served-root>/plugins/<stem>/`. -/
theorem plugin_discovery_contract (fs : String → List DirEntry)
    (root : RPath) (n : String) (d : RPath) :
    (n, d) ∈ pluginExtractionTargets fs root ↔
      ((∃ e, e ∈ fs "assets/www/plugins" ∧ e.isFile = true ∧
          (fileStemExt e.fileName).2 = some "zip" ∧
          (fileStemExt e.fileName).1 = n ∧ n ≠ "api") ∧
        d = ⟨root.absolute,
          root.comps ++ [Component.normal "plugins", Component.normal n]⟩) := by
  simp only [pluginExtractionTargets, List.mem_map, Prod.mk.injEq]
  constructor
  · rintro ⟨m, hm, rfl, rfl⟩
    exact ⟨(mem_discoverPlugins fs m).mp hm, pluginTargetDir_eq _ _⟩
  · rintro ⟨hex, rfl⟩
    exact ⟨n, (mem_discoverPlugins fs n).mpr hex, rfl,
      pluginTargetDir_eq _ _⟩

theorem plugin_discovery_contract_witness :
    ("foo", (⟨true, [Component.normal "srv", Component.normal "plugins",
        Component.normal "foo"]⟩ : RPath)) ∈
      pluginExtractionTargets scanCexFs ⟨true, [Component.normal "srv"]⟩ :=
  (plugin_discovery_contract scanCexFs ⟨true, [Component.normal "srv"]⟩
      "foo" ⟨true, [Component.normal "srv", Component.normal "plugins",
        Component.normal "foo"]⟩).mpr
    ⟨⟨⟨"foo.zip", true⟩, by decide, rfl, by decide, by decide, by decide⟩,
      by decide⟩

/-! ## Plugin provisioning loop (main.rs:71-82, 156-179) -/

/-- Filesystem oracle for plugin loading: whether a bundle file opens and
memory-maps, and whether its archive extracts cleanly. -/
structure PluginFs where
  openOk : String → Bool
  archiveOk : String → Bool

/-- Provisioning state: whether `<target>/plugins` exists yet and which
plugin directories have already been created. -/
structure ProvState where
  pluginsRootExists : Bool
  created : List String
deriving DecidableEq, Repr

/-- Embedding of `load_plugin` (main.rs:71-82): open and mmap the bundle,
create `<target>/plugins` when absent, create `<target>/plugins/<name>` —
an already-existing directory is an error, as for `std::fs::create_dir` —
then extract. Returns the per-plugin result plus the updated state. -/
def load_plugin (fs : PluginFs) (st : ProvState) (name : String) :
    Except String Unit × ProvState :=
  if !fs.openOk name then (.error "open failed", st)
  else if name ∈ st.created then (.error "create dir failed", ⟨true, st.created⟩)
  else
    let st2 : ProvState := ⟨true, st.created ++ [name]⟩
    if fs.archiveOk name then (.ok (), st2)
    else (.error "extract failed", st2)

/-- One log line of the loop at main.rs:170-173. -/
inductive LogLine
  | loaded (name : String)
  | failed (name : String) (err : String)
deriving DecidableEq, Repr

/-- The plugin a log line speaks about. -/
def LogLine.name : LogLine → String
  | .loaded n => n
  | .failed n _ => n

/-- Embedding of the plugin loop of `main` (main.rs:163-174): every
discovered bundle is passed to `load_plugin`; success and failure are both
merely logged and the loop continues; the loop always returns, after which
startup proceeds to the listener phase. -/
def pluginLoop (fs : PluginFs) : ProvState → List String →
    List LogLine × ProvState
  | st, [] => ([], st)
  | st, n :: rest =>
    let r := load_plugin fs st n
    let tail := pluginLoop fs r.2 rest
    ((match r.1 with
      | .ok _ => LogLine.loaded n
      | .error e => LogLine.failed n e) :: tail.1, tail.2)

/-- C8: every discovered plugin is processed and logged exactly once, in
discovery order, whatever each one's outcome: a plugin whose extraction
fails (corrupt archive, duplicate name making directory creation fail, …)
yields its own log line and every other plugin is still processed; the
loop always returns, so server startup continues. -/
theorem plugin_loop_isolates_failures (fs : PluginFs) (st : ProvState)
    (names : List String) :
    (pluginLoop fs st names).1.map LogLine.name = names := by
  induction names generalizing st with
  | nil => rfl
  | cons n rest ih =>
    rw [pluginLoop]
    cases (load_plugin fs st n).1 <;> simp [LogLine.name, ih]

example :
    pluginLoop ⟨fun _ => true, fun n => n != "bad"⟩ ⟨false, []⟩
        ["foo", "bad", "foo"]
      = ([LogLine.loaded "foo", LogLine.failed "bad" "extract failed",
          LogLine.failed "foo" "create dir failed"],
        ⟨true, ["foo", "bad"]⟩) := by
  decide

/-! ## Archive extraction (load_web main.rs:64-69, load_plugin main.rs:80) -/

/-- Normalise an entry's components against the extraction root: `.` is
dropped, a name is pushed, `..` pops — `none` when a `..` would climb above
the root, i.e. the entry escapes. -/
def normSegs : List String → List Component → Option (List String)
  | acc, [] => some acc
  | acc, Component.curDir :: rest => normSegs acc rest
  | acc, Component.normal s :: rest => normSegs (acc ++ [s]) rest
  | acc, Component.parentDir :: rest =>
    match acc with
    | [] => none
    | a :: as => normSegs ((a :: as).dropLast) rest

/-- Modelled from the spec: the archive extractor behind `load_web` and
`load_plugin` is `zip_extract::extract`, an external crate whose code is
not under `src/`; per §4.2 entry paths are untrusted and an entry whose
path would escape the target directory is rejected, with extraction
all-or-partial (entries written before a rejection remain). Returns the
written paths and whether extraction succeeded. -/
def extractEntries (target : RPath) : List RPath → List RPath × Bool
  | [] => ([], true)
  | e :: rest =>
    if e.absolute then ([], false)
    else
      match normSegs [] e.comps with
      | none => ([], false)
      | some segs =>
        let w : RPath :=
          ⟨target.absolute, target.comps ++ segs.map Component.normal⟩
        let tail := extractEntries target rest
        (w :: tail.1, tail.2)

example : extractEntries ⟨true, [Component.normal "t"]⟩
      [⟨false, [Component.parentDir, Component.parentDir,
        Component.normal "escape.txt"]⟩]
    = ([], false) := by decide

example : extractEntries ⟨true, [Component.normal "t"]⟩
      [⟨true, [Component.normal "etc", Component.normal "passwd"]⟩]
    = ([], false) := by decide

/-- Appending components keeps the original path as a prefix. -/
theorem startsWith_append (t : RPath) (cs : List Component) :
    RPath.startsWith ⟨t.absolute, t.comps ++ cs⟩ t = true := by
  rw [RPath.startsWith]
  apply List.isPrefixOf_iff_prefix.mpr
  simp only [RPath.fullComps, List.map_append, ← List.append_assoc]
  exact List.prefix_append _ _

/-- Every path the modelled extractor writes stays under the target. -/
theorem extractEntries_writes_in_target (target : RPath)
    (entries : List RPath) (p : RPath)
    (hp : p ∈ (extractEntries target entries).1) :
    p.startsWith target = true := by
  induction entries with
  | nil => simp [extractEntries] at hp
  | cons e rest ih =>
    rw [extractEntries] at hp
    by_cases habs : e.absolute
    · simp [habs] at hp
    · simp only [habs, ite_false, Bool.false_eq_true] at hp
      cases hn : normSegs [] e.comps with
      | none => simp [hn] at hp
      | some segs =>
        simp only [hn, List.mem_cons] at hp
        rcases hp with rfl | hp
        · exact startsWith_append target _
        · exact ih hp

/-- `startsWith` is transitive. -/
theorem startsWith_trans (a b c : RPath) (h1 : a.startsWith b = true)
    (h2 : b.startsWith c = true) : a.startsWith c = true := by
  rw [RPath.startsWith] at h1 h2 ⊢
  exact List.isPrefixOf_iff_prefix.mpr
    ((List.isPrefixOf_iff_prefix.mp h2).trans (List.isPrefixOf_iff_prefix.mp h1))

/-- C2: no archive entry is ever written outside the extraction target —
neither by `load_web`, which extracts straight into the target, nor by
`load_plugin`, which extracts into `<target>/plugins/<name>`; entries such
as `../../escape.txt` or absolute paths make the extractor reject instead. -/
theorem extraction_no_escape (target : RPath) (entries : List RPath) :
    (∀ p, p ∈ (extractEntries target entries).1 →
        p.startsWith target = true) ∧
      (∀ name p, p ∈ (extractEntries (pluginTargetDir target name) entries).1 →
        p.startsWith target = true) := by
  refine ⟨fun p hp => extractEntries_writes_in_target target entries p hp,
    fun name p hp => ?_⟩
  have h1 := extractEntries_writes_in_target (pluginTargetDir target name)
    entries p hp
  have h2 : (pluginTargetDir target name).startsWith target = true := by
    rw [pluginTargetDir_eq]
    exact startsWith_append target _
  exact startsWith_trans _ _ _ h1 h2

theorem extraction_no_escape_witness :
    RPath.startsWith ⟨true, [Component.normal "t", Component.normal "good"]⟩
      ⟨true, [Component.normal "t"]⟩ = true :=
  (extraction_no_escape ⟨true, [Component.normal "t"]⟩
      [⟨false, [Component.normal "good"]⟩]).1
    ⟨true, [Component.normal "t", Component.normal "good"]⟩ (by decide)

/-! ## check_path_permitted (main.rs:52-62) -/

/-- The ambient state `check_path_permitted` consults: the process's
current working directory and the OS `canonicalize` operation (symlink and
`.`/`..` resolution); `none` models an `Err`, e.g. a non-existing path. -/
structure FsState where
  cwd : RPath
  canon : RPath → Option RPath

/-- Embedding of `check_path_permitted` (main.rs:52-62): for each permitted
subdirectory, canonicalize `cwd/sub` and the candidate — errors propagate —
and accept as soon as the canonical candidate starts with a canonical
permitted directory; reject once the list is exhausted. -/
def check_path_permitted (σ : FsState) (path : RPath) :
    List RPath → Except String Unit
  | [] => .error "path not permitted"
  | sub :: rest =>
    match σ.canon (σ.cwd.join sub) with
    | none => .error "canonicalize failed"
    | some permitted =>
      match σ.canon path with
      | none => .error "canonicalize failed"
      | some canonPath =>
        if canonPath.startsWith permitted then .ok ()
        else check_path_permitted σ path rest

/-- C9 fails as stated: the verdict is not a function of the candidate and
the permitted list alone — the same two inputs give different verdicts under
two filesystem states (here: one where the paths canonicalize, one where
they do not, e.g. before and after the directories exist). -/
theorem check_path_not_pure_in_two_inputs :
    check_path_permitted ⟨⟨true, []⟩, fun _ => none⟩
        ⟨true, [Component.normal "a"]⟩ [⟨false, [Component.normal "a"]⟩]
      ≠ check_path_permitted ⟨⟨true, []⟩, fun p => some p⟩
        ⟨true, [Component.normal "a"]⟩ [⟨false, [Component.normal "a"]⟩] := by
  decide

/-- C9 (amended): the verdict is a pure function of the candidate path, the
permitted list, and the filesystem state consulted (working directory and
canonicalization): two invocations whose states agree return the same
verdict. -/
theorem check_path_deterministic (σ₁ σ₂ : FsState) (path : RPath)
    (permitted : List RPath) (hcwd : σ₁.cwd = σ₂.cwd)
    (hcanon : ∀ q, σ₁.canon q = σ₂.canon q) :
    check_path_permitted σ₁ path permitted
      = check_path_permitted σ₂ path permitted := by
  induction permitted with
  | nil => rfl
  | cons sub rest ih =>
    rw [check_path_permitted, check_path_permitted, hcwd,
      hcanon (σ₂.cwd.join sub), hcanon path]
    cases σ₂.canon (σ₂.cwd.join sub) with
    | none => rfl
    | some permC =>
      cases σ₂.canon path with
      | none => rfl
      | some pc =>
        by_cases h : pc.startsWith permC
        · simp [h]
        · simp [h, ih]

theorem check_path_deterministic_witness :
    check_path_permitted ⟨⟨true, []⟩, fun p => some p⟩
        ⟨true, [Component.normal "a"]⟩ [⟨false, [Component.normal "a"]⟩]
      = check_path_permitted ⟨⟨true, []⟩, fun p => some p⟩
        ⟨true, [Component.normal "a"]⟩ [⟨false, [Component.normal "a"]⟩] :=
  check_path_deterministic _ _ _ _ rfl (fun _ => rfl)

end Ai00
